import Mathlib

/-!
Shallow embedding of the `fabric_shell` core (Text Extractor, History Store,
Execution Gate) from `fabric_shell/utils/extractors.py` and
`fabric_shell/utils/commands.py`.

Python strings are modelled as `List Char` (sequences of code points);
`str.lower`, `str.strip`, `str.split` and the character classes `\w`, `\s`
are modelled on their ASCII behaviour, which covers every keyword table and
input appearing in the development.  `re.sub`/`re.findall` calls are
modelled by direct left-to-right scanners implementing the same match
semantics; scanners that do not recurse structurally take an explicit fuel
argument that is always initialised to the input length, which is an upper
bound on the number of scanning steps.
-/

set_option maxRecDepth 100000

namespace FabricShell

/-- The backtick character (U+0060), written via its code point. -/
def btick : Char := Char.ofNat 96

/-- Model of the regex class `\s` and of Python whitespace (ASCII part). -/
def isPySpace (c : Char) : Bool := c.isWhitespace

/-- Model of the regex class `\w` (ASCII part): alphanumeric or underscore. -/
def isWordChar (c : Char) : Bool := c.isAlphanum || c = '_'

/-- `str.lower()` (ASCII part). -/
def lowerL (s : List Char) : List Char := s.map Char.toLower

/-- `str.strip()`: drop leading and trailing whitespace. -/
def strip (s : List Char) : List Char :=
  ((s.dropWhile isPySpace).reverse.dropWhile isPySpace).reverse

/-- `str.split('\n')`: split on the newline character, keeping empty parts
(`splitNl [] = [[]]`, matching Python `"".split('\n') == [""]`). -/
def splitNl : List Char → List (List Char)
  | [] => [[]]
  | c :: rest =>
    if c = '\n' then [] :: splitNl rest
    else
      match splitNl rest with
      | [] => [[c]]
      | g :: gs => (c :: g) :: gs

/-- `str.split()` (no separator): the maximal runs of non-whitespace
characters, in order.  Fueled scanner; fuel `≥ length` suffices. -/
def wordsOf_go : Nat → List Char → List (List Char)
  | 0, _ => []
  | _ + 1, [] => []
  | fuel + 1, c :: rest =>
    if isPySpace c then wordsOf_go fuel rest
    else (c :: rest.takeWhile (fun d => !isPySpace d)) ::
      wordsOf_go fuel (rest.dropWhile (fun d => !isPySpace d))

/-- `str.split()` (whitespace split, empties discarded). -/
def wordsOf (s : List Char) : List (List Char) := wordsOf_go s.length s

/-- `needle` occurs at the start of `haystack`. -/
def leadsWith : List Char → List Char → Bool
  | [], _ => true
  | _ :: _, [] => false
  | a :: as, b :: bs => a = b && leadsWith as bs

/-- Python `needle in haystack`: substring occurrence test. -/
def hasSub (needle : List Char) : List Char → Bool
  | [] => leadsWith needle []
  | c :: rest => leadsWith needle (c :: rest) || hasSub needle rest

/-- `s.endswith(c)` for a single character `c`. -/
def lastIs (s : List Char) (c : Char) : Bool :=
  match s.getLast? with
  | some d => d = c
  | none => false

/-!
### Text Extractor (`fabric_shell/utils/extractors.py`, class `TextExtractor`)
-/

/-- Scanner for `re.sub(r'```[\w]*\s*', '', text)`: at each occurrence of a
triple backtick, the fence, the following maximal run of word characters and
the following maximal run of whitespace are dropped, and scanning resumes
after them; elsewhere the character is kept.  Fuel `≥ length` suffices. -/
def sub_fence_go : Nat → List Char → List Char
  | 0, l => l
  | _ + 1, [] => []
  | fuel + 1, c :: rest =>
    if c = btick ∧ rest.take 2 = [btick, btick] then
      sub_fence_go fuel (((rest.drop 2).dropWhile isWordChar).dropWhile isPySpace)
    else c :: sub_fence_go fuel rest

/-- `re.sub(r'```[\w]*\s*', '', text)`. -/
def sub_fence (l : List Char) : List Char := sub_fence_go l.length l

/-- `re.sub(r'```', '', text)`: drop every (non-overlapping, leftmost-first)
triple backtick. -/
def sub_ticks3 : List Char → List Char
  | c1 :: c2 :: c3 :: rest =>
    if c1 = btick ∧ c2 = btick ∧ c3 = btick then sub_ticks3 rest
    else c1 :: sub_ticks3 (c2 :: c3 :: rest)
  | l => l

/-- `text.replace('`', '')`. -/
def drop_bticks (l : List Char) : List Char := l.filter (fun c => !(c = btick))

/-- Scanner for `re.sub(r'\*\*[^*]+\*\*', '', text)`: a match is `**`, a
nonempty maximal run of non-`*` characters, then `**`; on a failed match the
scan advances one character.  Fuel `≥ length` suffices. -/
def sub_bold_go : Nat → List Char → List Char
  | 0, l => l
  | _ + 1, [] => []
  | fuel + 1, c :: rest =>
    if c = '*' ∧ rest.take 1 = ['*'] then
      let inner := (rest.drop 1).takeWhile (fun d => !(d = '*'))
      let after := (rest.drop 1).dropWhile (fun d => !(d = '*'))
      if inner ≠ [] ∧ after.take 2 = ['*', '*'] then sub_bold_go fuel (after.drop 2)
      else c :: sub_bold_go fuel rest
    else c :: sub_bold_go fuel rest

/-- `re.sub(r'\*\*[^*]+\*\*', '', text)`. -/
def sub_bold (l : List Char) : List Char := sub_bold_go l.length l

/-- Scanner for `re.sub(r'^\s*[\*\-]\s*', '', text, flags=re.MULTILINE)`.
The anchor `^` holds at position 0 and right after each `'\n'` of the
original text (tracked by the `anchored` flag).  At an anchored position the
pattern matches iff the first non-whitespace character from there is `*` or
`-`; the match consumes the leading whitespace, the marker and the maximal
whitespace run after it (which may cross line ends, so the flag after a
match records whether the last consumed character was a newline).
Fuel `≥ length` suffices. -/
def sub_bullets_go : Nat → Bool → List Char → List Char
  | 0, _, l => l
  | _ + 1, _, [] => []
  | fuel + 1, anchored, c :: rest =>
    if anchored then
      match (c :: rest).dropWhile isPySpace with
      | m :: rest2 =>
        if m = '*' ∨ m = '-' then
          let ws2 := rest2.takeWhile isPySpace
          let nextAnchor :=
            match ws2.getLast? with
            | some w => w = '\n'
            | none => false
          sub_bullets_go fuel nextAnchor (rest2.dropWhile isPySpace)
        else c :: sub_bullets_go fuel (c = '\n') rest
      | [] => c :: sub_bullets_go fuel (c = '\n') rest
    else c :: sub_bullets_go fuel (c = '\n') rest

/-- `re.sub(r'^\s*[\*\-]\s*', '', text, flags=re.MULTILINE)`. -/
def sub_bullets (l : List Char) : List Char := sub_bullets_go l.length true l

/-- The `skip_patterns` list of `extract_clean_command`. -/
def skip_patterns : List (List Char) :=
  [("note:").toList, ("here").toList, ("this").toList, ("you").toList,
   ("the").toList, ("explanation").toList, ("import").toList,
   ("modification").toList, ("corrected").toList, ("command").toList,
   ("alternative").toList, ("approach").toList, ("if you").toList,
   ("can:").toList, ("should").toList, ("would").toList, ("could").toList,
   ("example:").toList, ("description").toList]

/-- The comment-marker tuple of `line.startswith(('#', '//', '/*', '<!--'))`. -/
def comment_markers : List (List Char) :=
  [("#").toList, ("//").toList, ("/*").toList, ("<!--").toList]

/-- The article tuple of
`line.lower().startswith(('the ', 'this ', 'that ', 'a ', 'an '))`. -/
def article_markers : List (List Char) :=
  [("the ").toList, ("this ").toList, ("that ").toList, ("a ").toList,
   ("an ").toList]

/-- `re.sub(r'[*_`]', '', line)`. -/
def drop_md (l : List Char) : List Char :=
  l.filter (fun c => !(c = '*' ∨ c = '_' ∨ c = btick))

/-- The command verbs of the fallback regex
`^(git|ls|cd|pwd|mkdir|rm|cp|mv|cat|grep|find|ps|top)\b`. -/
def command_verbs : List (List Char) :=
  [("git").toList, ("ls").toList, ("cd").toList, ("pwd").toList,
   ("mkdir").toList, ("rm").toList, ("cp").toList, ("mv").toList,
   ("cat").toList, ("grep").toList, ("find").toList, ("ps").toList,
   ("top").toList]

/-- `re.match(r'^(git|...|top)\b', line)`: one of the verbs at the start of
the line, followed by a word boundary (end of line or a non-word char). -/
def matches_command_verb (l : List Char) : Bool :=
  command_verbs.any (fun v =>
    leadsWith v l &&
      (match (l.drop v.length).head? with
       | some d => !isWordChar d
       | none => true))

/-- First selection loop of `extract_clean_command`: skip lines containing a
skip pattern (case-insensitively); skip lines ending in `.` or `:`, longer
than 200 characters, with more than 25 whitespace-separated tokens, or
starting with a comment marker; a surviving line that does not start with an
article is returned with stray markdown characters removed and stripped;
otherwise continue with the next line. -/
def pickFirst : List (List Char) → Option (List Char)
  | [] => none
  | line :: rest =>
    if skip_patterns.any (fun p => hasSub p (lowerL line)) then pickFirst rest
    else if lastIs line '.' || lastIs line ':' || decide (line.length > 200) ||
        decide ((wordsOf line).length > 25) ||
        comment_markers.any (fun m => leadsWith m line) then pickFirst rest
    else if !(line.isEmpty) &&
        !(article_markers.any (fun m => leadsWith m (lowerL line))) then
      some (strip (drop_md line))
    else pickFirst rest

/-- Second selection loop of `extract_clean_command`: the first line whose
markdown-stripped form starts with a common command verb. -/
def pickCmd : List (List Char) → Option (List Char)
  | [] => none
  | line :: rest =>
    let line_clean := strip (drop_md line)
    if matches_command_verb line_clean then some line_clean else pickCmd rest

/-- `TextExtractor.extract_clean_command` from
`fabric_shell/utils/extractors.py`. -/
def extract_clean_command (text : List Char) : List Char :=
  let t1 := sub_fence text
  let t2 := sub_ticks3 t1
  let t3 := drop_bticks t2
  let t4 := sub_bold t3
  let t5 := sub_bullets t4
  let lines := (splitNl t5).filterMap (fun line =>
    let s := strip line
    if s = [] then none else some s)
  match pickFirst lines with
  | some r => r
  | none =>
    match pickCmd lines with
    | some r => r
    | none =>
      match lines.head? with
      | some l => l
      | none => []

/-- Split a string at the first occurrence of a triple backtick, returning
the parts before and after it, or `none` when there is none. -/
def splitAtFence : List Char → Option (List Char × List Char)
  | c1 :: c2 :: c3 :: rest =>
    if c1 = btick ∧ c2 = btick ∧ c3 = btick then some ([], rest)
    else (splitAtFence (c2 :: c3 :: rest)).map (fun p => (c1 :: p.1, p.2))
  | _ => none

/-- Scanner for `re.findall(r'```(?:(\w+))?\s*(.*?)```', text, re.DOTALL)`:
at the leftmost fence, the optional language tag is the maximal run of word
characters after it, then the maximal whitespace run is skipped, and the
non-greedy body extends to the next fence; scanning resumes after that
closing fence.  An unterminated fence yields no further match.  Fuel
`≥ length` suffices (every match consumes at least six characters). -/
def findBlocks_go : Nat → List Char → List (List Char × List Char)
  | 0, _ => []
  | fuel + 1, l =>
    match splitAtFence l with
    | none => []
    | some (_, rest) =>
      let lang := rest.takeWhile isWordChar
      let r2 := (rest.dropWhile isWordChar).dropWhile isPySpace
      match splitAtFence r2 with
      | none => []
      | some (body, after) => (lang, body) :: findBlocks_go fuel after

/-- All regex matches of the fenced-code-block pattern, as
(language group, body group) pairs in source order. -/
def findBlocks (text : List Char) : List (List Char × List Char) :=
  findBlocks_go text.length text

/-- The dictionaries built by `TextExtractor.extract_code_blocks`
(`'language'` is `None` when the group is empty, else lower-cased). -/
structure CodeBlock where
  language : Option (List Char)
  code : List Char
deriving DecidableEq, Repr

/-- `TextExtractor.extract_code_blocks` from
`fabric_shell/utils/extractors.py`: loop over the matches, appending a block
for each one whose stripped body is longer than five characters. -/
def extract_code_blocks (text : List Char) : List CodeBlock :=
  (findBlocks text).foldl
    (fun acc m =>
      if (strip m.2).length > 5 then
        acc ++ [{ language := if m.1 = [] then none else some (lowerL m.1),
                  code := strip m.2 }]
      else acc)
    []

/-- The powershell keyword row of `TextExtractor.detect_language`. -/
def powershell_keywords : List (List Char) :=
  [("$").toList, ("get-").toList, ("set-").toList, ("new-").toList,
   ("import-module").toList]

/-- The bash keyword row of `TextExtractor.detect_language`. -/
def bash_keywords : List (List Char) :=
  [("#!/bin/bash").toList, ("echo").toList, ("grep").toList,
   ("awk").toList, ("sed").toList]

/-- The python keyword row of `TextExtractor.detect_language`. -/
def python_keywords : List (List Char) :=
  [("import ").toList, ("def ").toList, ("print(").toList,
   ("if __name__").toList]

/-- The javascript keyword row of `TextExtractor.detect_language`. -/
def javascript_keywords : List (List Char) :=
  [("function").toList, ("var ").toList, ("const ").toList,
   ("let ").toList]

/-- Some keyword of the row occurs in the lower-cased code. -/
def keyword_hit (kws : List (List Char)) (code : List Char) : Bool :=
  kws.any (fun kw => hasSub kw (lowerL code))

/-- The keyword table of `TextExtractor.detect_language`, in the source's
(insertion) order. -/
def language_patterns : List (List Char × List (List Char)) :=
  [(("powershell").toList, powershell_keywords),
   (("bash").toList, bash_keywords),
   (("python").toList, python_keywords),
   (("javascript").toList, javascript_keywords)]

/-- `TextExtractor.detect_language` from `fabric_shell/utils/extractors.py`:
first category of `language_patterns` with a keyword occurring in the
lower-cased code wins; otherwise the fixed fallback `"bash"`. -/
def detect_language (code : List Char) : List Char :=
  let code_lower := lowerL code
  match language_patterns.find? (fun p =>
      p.2.any (fun kw => hasSub kw code_lower)) with
  | some p => p.1
  | none => ("bash").toList

/-!
### History Store (`fabric_shell/utils/commands.py`, class
`CommandHistoryManager`)
-/

/-- A history entry dictionary as built by `add_successful_command`
(`success` is a field because `get_similar_commands` reads it back with
`entry.get('success', False)`). -/
structure HistoryEntry where
  timestamp : List Char
  command : List Char
  task_description : List Char
  shell_type : List Char
  output_preview : List Char
  success : Bool
deriving DecidableEq, Repr

/-- The `output_preview` expression of `add_successful_command`:
`output[:200] + "..." if len(output) > 200 else output`. -/
def output_preview_of (output : List Char) : List Char :=
  if output.length > 200 then output.take 200 ++ ("...").toList else output

/-- The state of a `CommandHistoryManager`: the in-memory `self.history`
list and the JSON array currently persisted in the history file. -/
structure HistoryStore where
  memory : List HistoryEntry
  disk : List HistoryEntry
deriving DecidableEq, Repr

/-- Python `l[-100:]`: the last `n` entries of a list (all of them when it
is shorter). -/
def lastN (n : Nat) (l : List HistoryEntry) : List HistoryEntry :=
  l.drop (l.length - n)

/-- `CommandHistoryManager._save_history`: writes `self.history[-100:]` to
the history file; the in-memory list is not modified.  The best-effort
write is modelled on its success path (a failure leaves the disk unchanged
and is logged). -/
def save_history (st : HistoryStore) : HistoryStore :=
  { st with disk := lastN 100 st.memory }

/-- `CommandHistoryManager.add_successful_command`: build the entry
(`datetime.now().isoformat()` is passed in as the explicit clock input
`timestamp`), append it to `self.history`, then `_save_history`. -/
def add_successful_command (st : HistoryStore) (timestamp command
    task_description shell_type output : List Char) : HistoryStore :=
  let entry : HistoryEntry :=
    { timestamp := timestamp
      command := command
      task_description := task_description
      shell_type := shell_type
      output_preview := output_preview_of output
      success := true }
  save_history { st with memory := st.memory ++ [entry] }

/-- `n` sequential `add_successful_command` calls (with fixed argument
strings; only the entry count matters for the size bounds). -/
def addMany : Nat → HistoryStore → HistoryStore
  | 0, st => st
  | n + 1, st => addMany n (add_successful_command st [] [] [] [] [])

/-- Token set of a string as used by `get_similar_commands`:
`set(s.lower().split())`. -/
def tokensOf (s : List Char) : Finset (List Char) :=
  (wordsOf (lowerL s)).toFinset

/-- The Jaccard similarity `overlap / len(union)` of the query's and an
entry text's token sets, as a rational number. -/
def jaccard (query entry_text : List Char) : ℚ :=
  Rat.divInt ((tokensOf query ∩ tokensOf entry_text).card : ℤ)
    ((tokensOf query ∪ tokensOf entry_text).card : ℤ)

/-- `CommandHistoryManager.get_similar_commands`: score the successful
entries with a positive token-set overlap by Jaccard similarity, sort by
score descending (Python `list.sort(key=..., reverse=True)` is stable, as
is insertion sort with this relation), and return at most `limit`
entries. -/
def get_similar_commands (history : List HistoryEntry)
    (task_description : List Char) (limit : Nat) : List HistoryEntry :=
  let task_words := tokensOf task_description
  let scored := history.filterMap (fun entry =>
    if entry.success = true then
      let entry_words := tokensOf entry.task_description
      let overlap := (task_words ∩ entry_words).card
      if 0 < overlap then
        some ((Rat.divInt (overlap : ℤ)
          (((task_words ∪ entry_words).card : ℤ))), entry)
      else none
    else none)
  let sorted := List.insertionSort (fun a b => b.1 ≤ a.1) scored
  (sorted.take limit).map (fun p => p.2)

/-- The `scored_commands` list built by the loop of
`get_similar_commands`: each successful entry with a positive token-set
overlap against the query, paired with its Jaccard score, in history
order. -/
def scoredOf (history : List HistoryEntry) (task_description : List Char) :
    List (ℚ × HistoryEntry) :=
  let task_words := tokensOf task_description
  history.filterMap (fun entry =>
    if entry.success = true then
      let entry_words := tokensOf entry.task_description
      let overlap := (task_words ∩ entry_words).card
      if 0 < overlap then
        some ((Rat.divInt (overlap : ℤ)
          (((task_words ∪ entry_words).card : ℤ))), entry)
      else none
    else none)

/-- A concrete stored entry with task `"list all files"` (spec testable
property 6). -/
def entryListAllFiles : HistoryEntry :=
  { timestamp := []
    command := ("ls").toList
    task_description := ("list all files").toList
    shell_type := ("bash").toList
    output_preview := []
    success := true }

/-- A concrete stored entry with task `"find large files"` (spec testable
property 6). -/
def entryFindLargeFiles : HistoryEntry :=
  { timestamp := []
    command := ("du").toList
    task_description := ("find large files").toList
    shell_type := ("bash").toList
    output_preview := []
    success := true }

/-!
### Execution Gate (`fabric_shell/utils/commands.py`, class
`CommandExecutor`)
-/

/-- The observable outcome of the spawned process, an input of
`execute_command` (the `subprocess.run` call is the external Shell
Runner). -/
structure ProcOutcome where
  returncode : Int
  stdout : List Char
  stderr : List Char
deriving DecidableEq, Repr

/-- The result dictionary of `execute_command` /
`execute_command_with_options`.  Keys that a given code path leaves absent
from the Python dict are modelled by their falsy defaults, matching every
`result.get(...)` read in the source. -/
structure ExecResult where
  success : Bool := false
  stdout : List Char := []
  stderr : List Char := []
  returncode : Int := 0
  command : List Char := []
  cancelled : Bool := false
  user_confirmed_failure : Bool := false
deriving DecidableEq, Repr

/-- `rich.prompt.Prompt.ask(choices=..., default=d)`: an empty operator
reply yields the default, any other (validated) reply is returned as
typed. -/
def promptChoice (dflt : List Char) (input : List Char) : List Char :=
  if input = [] then dflt else input

/-- The result dictionary built by `CommandExecutor.execute_command` on
normal process completion: `success` is `returncode == 0`. -/
def execute_command (proc : ProcOutcome) (command : List Char) : ExecResult :=
  { success := proc.returncode = 0
    stdout := proc.stdout
    stderr := proc.stderr
    returncode := proc.returncode
    command := command }

/-- `CommandExecutor.show_result`: returns the (possibly mutated) result
dictionary and the returned error value.  When the result is a success,
confirmation was requested and the task description is non-empty, the
operator is asked "Did this accomplish your goal?" with default `"y"`
(`confirm_answer` is the reply); a negative reply sets
`user_confirmed_failure` and returns an error string. -/
def show_result (result : ExecResult) (ask_confirmation : Bool)
    (task_description : List Char) (confirm_answer : List Char) :
    ExecResult × Option (List Char) :=
  if result.cancelled then (result, none)
  else if result.success then
    if ask_confirmation ∧ task_description ≠ [] then
      let worked_as_expected :=
        lowerL (promptChoice (("y").toList) confirm_answer) ∈
          [("y").toList, ("yes").toList]
      if worked_as_expected then (result, none)
      else ({ result with user_confirmed_failure := true },
        some (("User confirmed command failed to accomplish the goal").toList))
    else (result, none)
  else
    let error :=
      if result.stderr ≠ [] then result.stderr
      else ("Unknown error").toList
    (result, some (strip error))

/-- `CommandExecutor.execute_command_with_options`, driven by the operator's
replies: `answers` are the successive replies to the first
(`Execute command? Yes/No/Explain`, default `"n"`) prompt — an
`e`/`explain` reply renders an explanation and re-asks — and
`confirm_answer` is the reply to the post-hoc confirmation.  Returns the
result dictionary, the resulting history-store state, and whether the
Shell Runner was invoked; `none` when the reply list is exhausted while
the gate is still prompting. -/
def execute_command_with_options (answers : List (List Char))
    (command task_description shell_type : List Char)
    (timestamp : List Char) (proc : ProcOutcome) (confirm_answer : List Char)
    (store : HistoryStore) : Option (ExecResult × HistoryStore × Bool) :=
  match answers with
  | [] => none
  | ans :: restAnswers =>
    let choice := lowerL (promptChoice (("n").toList) ans)
    if choice ∈ [("e").toList, ("explain").toList] then
      execute_command_with_options restAnswers command task_description
        shell_type timestamp proc confirm_answer store
    else if choice ∈ [("y").toList, ("yes").toList] then
      let result0 := execute_command proc command
      let shown := show_result result0 true task_description confirm_answer
      let result := shown.1
      let error := shown.2
      let store' :=
        if result.success = true ∧ error = none then
          if task_description ≠ [] ∧ result.user_confirmed_failure = false then
            add_successful_command store timestamp command task_description
              shell_type result.stdout
          else store
        else store
      some (result, store', true)
    else
      some ({ cancelled := true }, store, false)

/-!
## Theorems
-/

/-- Claim C5: `extract_clean_command` on the spec's example input returns
exactly `"cp -r src dst"`; the first two lines are discarded by the
explanatory-keyword and trailing-period/colon rules. -/
theorem C5_extract_command_example :
    extract_clean_command
        (("Here is what you need:\nThis will copy files.\ncp -r src dst\n").toList) =
      ("cp -r src dst").toList := by
  decide

/-- Claim C1 counterexample: 150 sequential `add_successful_command` calls
starting from an empty store leave 150 entries in memory and 100 on disk,
so the in-memory collection neither has at most 100 entries nor equals the
persisted collection. -/
theorem C1_counterexample :
    (addMany 150 ⟨[], []⟩).memory.length = 150 ∧
      (addMany 150 ⟨[], []⟩).disk.length = 100 ∧
      (addMany 150 ⟨[], []⟩).memory ≠ (addMany 150 ⟨[], []⟩).disk := by
  refine ⟨by decide, by decide, by decide⟩

/-- Claim C1 (amended): after each `add_successful_command` call the
on-disk collection is the last-100 suffix of the in-memory collection
(oldest dropped) and has at most 100 entries, while the in-memory
collection retains every appended entry; 150 sequential adds from an empty
store leave 150 entries in memory and 100 on disk. -/
theorem C1_amended :
    ∀ (st : HistoryStore) (ts cmd task shell out : List Char),
      (add_successful_command st ts cmd task shell out).memory =
          st.memory ++
            [{ timestamp := ts, command := cmd, task_description := task,
               shell_type := shell, output_preview := output_preview_of out,
               success := true }] ∧
        (add_successful_command st ts cmd task shell out).disk =
          lastN 100 (add_successful_command st ts cmd task shell out).memory ∧
        (add_successful_command st ts cmd task shell out).disk.length ≤ 100 ∧
        (addMany 150 ⟨[], []⟩).memory.length = 150 ∧
        (addMany 150 ⟨[], []⟩).disk.length = 100 := by
  intro st ts cmd task shell out
  refine ⟨rfl, rfl, ?_, by decide, by decide⟩
  simp only [add_successful_command, save_history, lastN, List.length_drop]
  omega

/-- Claim C4 counterexample: for a 201-character output the stored
`output_preview` has 203 characters, so it is not at most 200 characters
long. -/
theorem C4_counterexample :
    (output_preview_of (List.replicate 201 'a')).length = 203 ∧
      ¬(output_preview_of (List.replicate 201 'a')).length ≤ 200 := by
  refine ⟨by decide, by decide⟩

/-- Claim C4 (amended): `output_preview` is ellipsis-truncated to at most
203 characters: it equals the output when its length is at most 200, and
otherwise it is the 200-character prefix with `"..."` appended, which has
exactly 203 characters. -/
theorem C4_amended :
    ∀ (s : List Char),
      (s.length ≤ 200 → output_preview_of s = s) ∧
        (200 < s.length →
          output_preview_of s = s.take 200 ++ ("...").toList ∧
            (output_preview_of s).length = 203) := by
  intro s
  constructor
  · intro h
    simp only [output_preview_of, if_neg (by omega : ¬s.length > 200)]
  · intro h
    have he : output_preview_of s = s.take 200 ++ ("...").toList := by
      simp only [output_preview_of, if_pos (by omega : s.length > 200)]
    refine ⟨he, ?_⟩
    rw [he]
    simp only [List.length_append, List.length_take]
    have : min 200 s.length = 200 := by omega
    rw [this]
    decide

/-- Claim C4 witness: the amended statement applied to a short output and
to a 201-character output. -/
theorem C4_witness :
    (output_preview_of (("ok").toList) = ("ok").toList) ∧
      (output_preview_of (List.replicate 201 'b') =
          (List.replicate 201 'b').take 200 ++ ("...").toList ∧
        (output_preview_of (List.replicate 201 'b')).length = 203) :=
  ⟨(C4_amended (("ok").toList)).1 (by decide),
    (C4_amended (List.replicate 201 'b')).2 (by decide)⟩

/-- Claim C8 counterexample: `"true"` contains none of the table's
keywords, yet `detect_language` returns the fixed constant `"bash"` — the
function has no caller-supplied default-dialect parameter at all, so the
result cannot reflect the operator's current interactive shell. -/
theorem C8_counterexample :
    (language_patterns.all (fun p =>
        p.2.all (fun kw => !hasSub kw (lowerL (("true").toList))))) = true ∧
      detect_language (("true").toList) = ("bash").toList ∧
      detect_language [] = ("bash").toList := by
  refine ⟨by decide, by decide, by decide⟩

/-- Claim C8 (amended): when none of the table's keywords occurs in the
lower-cased code, `detect_language` returns the fixed constant `"bash"`
(there is no caller-supplied default); when keywords do occur, the first
matching category in the fixed priority order powershell, bash, python,
javascript wins. -/
theorem C8_amended :
    ∀ (code : List Char),
      (keyword_hit powershell_keywords code = false ∧
          keyword_hit bash_keywords code = false ∧
          keyword_hit python_keywords code = false ∧
          keyword_hit javascript_keywords code = false →
        detect_language code = ("bash").toList) ∧
      (keyword_hit powershell_keywords code = true →
        detect_language code = ("powershell").toList) ∧
      (keyword_hit powershell_keywords code = false ∧
          keyword_hit bash_keywords code = true →
        detect_language code = ("bash").toList) ∧
      (keyword_hit powershell_keywords code = false ∧
          keyword_hit bash_keywords code = false ∧
          keyword_hit python_keywords code = true →
        detect_language code = ("python").toList) ∧
      (keyword_hit powershell_keywords code = false ∧
          keyword_hit bash_keywords code = false ∧
          keyword_hit python_keywords code = false ∧
          keyword_hit javascript_keywords code = true →
        detect_language code = ("javascript").toList) := by
  intro code
  simp only [detect_language, language_patterns, List.find?, keyword_hit]
  refine ⟨?_, ?_, ?_, ?_, ?_⟩
  · rintro ⟨h1, h2, h3, h4⟩
    simp [h1, h2, h3, h4]
  · intro h1
    simp [h1]
  · rintro ⟨h1, h2⟩
    simp [h1, h2]
  · rintro ⟨h1, h2, h3⟩
    simp [h1, h2, h3]
  · rintro ⟨h1, h2, h3, h4⟩
    simp [h1, h2, h3, h4]

/-- Claim C8 witness: the amended statement applied to codes hitting no
row and each of the four rows in priority order. -/
theorem C8_witness :
    (keyword_hit powershell_keywords (("true").toList) = false ∧
        detect_language (("true").toList) = ("bash").toList) ∧
      detect_language (("Get-Process").toList) = ("powershell").toList ∧
      detect_language (("echo hi").toList) = ("bash").toList ∧
      detect_language (("def f(x)").toList) = ("python").toList ∧
      detect_language (("let x = 1").toList) = ("javascript").toList :=
  ⟨⟨by decide, (C8_amended (("true").toList)).1 (by decide)⟩,
    (C8_amended (("Get-Process").toList)).2.1 (by decide),
    (C8_amended (("echo hi").toList)).2.2.1 (by decide),
    (C8_amended (("def f(x)").toList)).2.2.2.1 (by decide),
    (C8_amended (("let x = 1").toList)).2.2.2.2 (by decide)⟩

/-- At the first gate, a reply resolving to `y`/`yes` runs the command;
with a zero return code, a non-empty task description and a post-hoc reply
resolving to `y`/`yes`, the result is returned unchanged and the store
gains the corresponding entry. -/
theorem gate_yes_confirm_yes (store : HistoryStore)
    (cmd task shell ts : List Char) (proc : ProcOutcome)
    (restAns : List (List Char)) (ans1 ans2 : List Char)
    (hrc : proc.returncode = 0) (htask : task ≠ [])
    (h1 : lowerL (promptChoice (("n").toList) ans1) ∈
      [("y").toList, ("yes").toList])
    (h2 : lowerL (promptChoice (("y").toList) ans2) ∈
      [("y").toList, ("yes").toList]) :
    execute_command_with_options (ans1 :: restAns) cmd task shell ts proc
        ans2 store =
      some (execute_command proc cmd,
        add_successful_command store ts cmd task shell proc.stdout, true) := by
  have h1' : lowerL (promptChoice (("n").toList) ans1) = ("y").toList ∨
      lowerL (promptChoice (("n").toList) ans1) = ("yes").toList := by
    simpa using h1
  have hne1 : lowerL (promptChoice (("n").toList) ans1) ∉
      [("e").toList, ("explain").toList] := by
    rcases h1' with h | h <;> rw [h] <;> decide
  have hsucc : (execute_command proc cmd).success = true := by
    simp [execute_command, hrc]
  have hcf : (execute_command proc cmd).cancelled = false := rfl
  have hshow : show_result (execute_command proc cmd) true task ans2 =
      (execute_command proc cmd, none) := by
    rw [show_result, if_neg (by rw [hcf]; simp), if_pos hsucc,
      if_pos ⟨rfl, htask⟩, if_pos h2]
  simp only [execute_command_with_options, if_neg hne1, if_pos h1, hshow]
  rw [if_pos ⟨hsucc, trivial⟩, if_pos ⟨htask, rfl⟩]
  rfl

/-- At the first gate, a reply resolving to `y`/`yes` runs the command;
with a zero return code, a non-empty task description and a post-hoc reply
not resolving to `y`/`yes`, the result comes back flagged with
`user_confirmed_failure` and the store is unchanged. -/
theorem gate_yes_confirm_no (store : HistoryStore)
    (cmd task shell ts : List Char) (proc : ProcOutcome)
    (restAns : List (List Char)) (ans1 ans2 : List Char)
    (hrc : proc.returncode = 0) (htask : task ≠ [])
    (h1 : lowerL (promptChoice (("n").toList) ans1) ∈
      [("y").toList, ("yes").toList])
    (h2 : lowerL (promptChoice (("y").toList) ans2) ∉
      [("y").toList, ("yes").toList]) :
    execute_command_with_options (ans1 :: restAns) cmd task shell ts proc
        ans2 store =
      some ({ execute_command proc cmd with user_confirmed_failure := true },
        store, true) := by
  have h1' : lowerL (promptChoice (("n").toList) ans1) = ("y").toList ∨
      lowerL (promptChoice (("n").toList) ans1) = ("yes").toList := by
    simpa using h1
  have hne1 : lowerL (promptChoice (("n").toList) ans1) ∉
      [("e").toList, ("explain").toList] := by
    rcases h1' with h | h <;> rw [h] <;> decide
  have hsucc : (execute_command proc cmd).success = true := by
    simp [execute_command, hrc]
  have hcf : (execute_command proc cmd).cancelled = false := rfl
  have hshow : show_result (execute_command proc cmd) true task ans2 =
      ({ execute_command proc cmd with user_confirmed_failure := true },
        some (("User confirmed command failed to accomplish the goal").toList)) := by
    rw [show_result, if_neg (by rw [hcf]; simp), if_pos hsucc,
      if_pos ⟨rfl, htask⟩, if_neg (by simpa using h2)]
  simp only [execute_command_with_options, if_neg hne1, if_pos h1, hshow]
  rw [if_neg (by simp)]

/-- At the first gate, any reply resolving neither to `y`/`yes` nor to
`e`/`explain` — in particular `n`, `no`, or the empty reply, which defaults
to `n` — cancels: the gate returns `{cancelled: true}`, the store is
returned untouched, and the Shell Runner is not invoked. -/
theorem gate_cancel (store : HistoryStore) (cmd task shell ts : List Char)
    (proc : ProcOutcome) (restAns : List (List Char)) (ans1 ans2 : List Char)
    (h1 : lowerL (promptChoice (("n").toList) ans1) ∉
      [("y").toList, ("yes").toList, ("e").toList, ("explain").toList]) :
    execute_command_with_options (ans1 :: restAns) cmd task shell ts proc
        ans2 store =
      some ({ cancelled := true }, store, false) := by
  have key : ∀ (s : List Char),
      s ∈ [("e").toList, ("explain").toList] ∨
        s ∈ [("y").toList, ("yes").toList] →
      s ∈ [("y").toList, ("yes").toList, ("e").toList, ("explain").toList] := by
    intro s hs
    rcases hs with hs | hs
    · rcases List.mem_cons.mp hs with h | h
      · rw [h]; decide
      · rcases List.mem_cons.mp h with h' | h'
        · rw [h']; decide
        · exact absurd h' (List.not_mem_nil _)
    · rcases List.mem_cons.mp hs with h | h
      · rw [h]; decide
      · rcases List.mem_cons.mp h with h' | h'
        · rw [h']; decide
        · exact absurd h' (List.not_mem_nil _)
  have hne : lowerL (promptChoice (("n").toList) ans1) ∉
      [("e").toList, ("explain").toList] :=
    fun hm => h1 (key _ (Or.inl hm))
  have hny : lowerL (promptChoice (("n").toList) ans1) ∉
      [("y").toList, ("yes").toList] :=
    fun hm => h1 (key _ (Or.inr hm))
  simp only [execute_command_with_options, if_neg hne, if_neg hny]

/-- Claim C2: when the executed process returns code 0 and the task
description is non-empty, the gate asks the post-hoc confirmation; a reply
resolving to yes adds to the store exactly one entry carrying the gate's
command, task description and shell type, while a reply resolving to no
sets `user_confirmed_failure` on the returned result and leaves the store
unchanged. -/
theorem C2_confirm_gate (store : HistoryStore)
    (cmd task shell ts : List Char) (proc : ProcOutcome)
    (restAns : List (List Char)) (ans1 ans2 : List Char)
    (hrc : proc.returncode = 0) (htask : task ≠ [])
    (h1 : lowerL (promptChoice (("n").toList) ans1) ∈
      [("y").toList, ("yes").toList]) :
    (lowerL (promptChoice (("y").toList) ans2) ∈
        [("y").toList, ("yes").toList] →
      execute_command_with_options (ans1 :: restAns) cmd task shell ts proc
          ans2 store =
        some (execute_command proc cmd,
          add_successful_command store ts cmd task shell proc.stdout, true) ∧
      (add_successful_command store ts cmd task shell proc.stdout).memory =
        store.memory ++
          [{ timestamp := ts, command := cmd, task_description := task,
             shell_type := shell,
             output_preview := output_preview_of proc.stdout,
             success := true }] ∧
      (add_successful_command store ts cmd task shell
          proc.stdout).memory.length = store.memory.length + 1) ∧
    (lowerL (promptChoice (("y").toList) ans2) ∉
        [("y").toList, ("yes").toList] →
      execute_command_with_options (ans1 :: restAns) cmd task shell ts proc
          ans2 store =
        some ({ execute_command proc cmd with user_confirmed_failure := true },
          store, true)) := by
  constructor
  · intro h2
    refine ⟨gate_yes_confirm_yes store cmd task shell ts proc restAns ans1
      ans2 hrc htask h1 h2, rfl, ?_⟩
    simp [add_successful_command, save_history]
  · intro h2
    exact gate_yes_confirm_no store cmd task shell ts proc restAns ans1
      ans2 hrc htask h1 h2

/-- Claim C2 witness: the theorem applied with first reply `"y"`, process
return code 0, task `"t"`, and post-hoc replies `"yes"` and `"no"` on an
empty store. -/
theorem C2_confirm_gate_witness :
    ((0 : Int) = 0 ∧ ("t").toList ≠ ([] : List Char) ∧
      lowerL (promptChoice (("n").toList) (("y").toList)) ∈
        [("y").toList, ("yes").toList]) ∧
    (lowerL (promptChoice (("y").toList) (("yes").toList)) ∈
        [("y").toList, ("yes").toList] →
      execute_command_with_options [("y").toList] (("ls").toList)
          (("t").toList) (("bash").toList) [] ⟨0, ("out").toList, []⟩
          (("yes").toList) ⟨[], []⟩ =
        some (execute_command ⟨0, ("out").toList, []⟩ (("ls").toList),
          add_successful_command ⟨[], []⟩ [] (("ls").toList) (("t").toList)
            (("bash").toList) (("out").toList), true) ∧
      (add_successful_command ⟨[], []⟩ [] (("ls").toList) (("t").toList)
          (("bash").toList) (("out").toList)).memory =
        ([] : List HistoryEntry) ++
          [{ timestamp := [], command := ("ls").toList,
             task_description := ("t").toList, shell_type := ("bash").toList,
             output_preview := output_preview_of (("out").toList),
             success := true }] ∧
      (add_successful_command ⟨[], []⟩ [] (("ls").toList) (("t").toList)
          (("bash").toList) (("out").toList)).memory.length =
        ([] : List HistoryEntry).length + 1) ∧
    (lowerL (promptChoice (("y").toList) (("no").toList)) ∉
        [("y").toList, ("yes").toList] →
      execute_command_with_options [("y").toList] (("ls").toList)
          (("t").toList) (("bash").toList) [] ⟨0, ("out").toList, []⟩
          (("no").toList) ⟨[], []⟩ =
        some ({ execute_command ⟨0, ("out").toList, []⟩ (("ls").toList) with
          user_confirmed_failure := true }, ⟨[], []⟩, true)) :=
  ⟨⟨rfl, by decide, by decide⟩,
    (C2_confirm_gate ⟨[], []⟩ (("ls").toList) (("t").toList)
      (("bash").toList) [] ⟨0, ("out").toList, []⟩ [] (("y").toList)
      (("yes").toList) rfl (by decide) (by decide)).1,
    (C2_confirm_gate ⟨[], []⟩ (("ls").toList) (("t").toList)
      (("bash").toList) [] ⟨0, ("out").toList, []⟩ [] (("y").toList)
      (("no").toList) rfl (by decide) (by decide)).2⟩

/-- Claim C3: a first-gate reply resolving to `n` — in particular `"n"`
itself or the empty reply, which defaults to the conservative `n` — makes
the gate return `{cancelled: true}` without invoking the Shell Runner and
with the History Store returned exactly as it was. -/
theorem C3_cancel_gate (store : HistoryStore)
    (cmd task shell ts : List Char) (proc : ProcOutcome)
    (restAns : List (List Char)) (ans1 ans2 : List Char)
    (h1 : lowerL (promptChoice (("n").toList) ans1) ∉
      [("y").toList, ("yes").toList, ("e").toList, ("explain").toList]) :
    execute_command_with_options (ans1 :: restAns) cmd task shell ts proc
        ans2 store =
      some ({ cancelled := true }, store, false) :=
  gate_cancel store cmd task shell ts proc restAns ans1 ans2 h1

/-- Claim C3 witness: the theorem applied to the empty first reply (which
defaults to `n`) and to the literal reply `"n"`. -/
theorem C3_cancel_gate_witness :
    (lowerL (promptChoice (("n").toList) []) ∉
        [("y").toList, ("yes").toList, ("e").toList, ("explain").toList] ∧
      execute_command_with_options [[]] (("ls").toList) (("t").toList)
          (("bash").toList) [] ⟨0, [], []⟩ [] ⟨[], []⟩ =
        some ({ cancelled := true }, ⟨[], []⟩, false)) ∧
    execute_command_with_options [("n").toList] (("ls").toList)
        (("t").toList) (("bash").toList) [] ⟨1, [], []⟩ [] ⟨[], []⟩ =
      some ({ cancelled := true }, ⟨[], []⟩, false) :=
  ⟨⟨by decide,
      C3_cancel_gate ⟨[], []⟩ (("ls").toList) (("t").toList)
        (("bash").toList) [] ⟨0, [], []⟩ [] [] [] (by decide)⟩,
    C3_cancel_gate ⟨[], []⟩ (("ls").toList) (("t").toList)
      (("bash").toList) [] ⟨1, [], []⟩ [] (("n").toList) [] (by decide)⟩

/-- Claim C10: the post-hoc confirmation defaults to yes on an empty reply
— for a zero return code and non-empty task description the command is
persisted — while the first (execution) gate defaults to the conservative
no: an empty first reply cancels without touching the store. -/
theorem C10_default_answers (store : HistoryStore)
    (cmd task shell ts : List Char) (proc : ProcOutcome)
    (restAns : List (List Char)) (ans2other : List Char)
    (hrc : proc.returncode = 0) (htask : task ≠ []) :
    (execute_command_with_options (("y").toList :: restAns) cmd task shell
        ts proc [] store =
      some (execute_command proc cmd,
        add_successful_command store ts cmd task shell proc.stdout, true)) ∧
    (execute_command_with_options ([] :: restAns) cmd task shell ts proc
        ans2other store =
      some ({ cancelled := true }, store, false)) :=
  ⟨gate_yes_confirm_yes store cmd task shell ts proc restAns
      (("y").toList) [] hrc htask (by decide) (by decide),
    gate_cancel store cmd task shell ts proc restAns [] ans2other
      (by decide)⟩

/-- Claim C10 witness: the theorem applied to a concrete successful
process, command and task on an empty store. -/
theorem C10_default_answers_witness :
    ((0 : Int) = 0 ∧ ("t").toList ≠ ([] : List Char)) ∧
    (execute_command_with_options [("y").toList] (("ls").toList)
        (("t").toList) (("bash").toList) [] ⟨0, ("out").toList, []⟩ []
        ⟨[], []⟩ =
      some (execute_command ⟨0, ("out").toList, []⟩ (("ls").toList),
        add_successful_command ⟨[], []⟩ [] (("ls").toList) (("t").toList)
          (("bash").toList) (("out").toList), true)) ∧
    (execute_command_with_options [[]] (("ls").toList) (("t").toList)
        (("bash").toList) [] ⟨0, ("out").toList, []⟩ (("n").toList)
        ⟨[], []⟩ =
      some ({ cancelled := true }, ⟨[], []⟩, false)) :=
  ⟨⟨rfl, by decide⟩,
    (C10_default_answers ⟨[], []⟩ (("ls").toList) (("t").toList)
      (("bash").toList) [] ⟨0, ("out").toList, []⟩ [] (("n").toList) rfl
      (by decide)).1,
    (C10_default_answers ⟨[], []⟩ (("ls").toList) (("t").toList)
      (("bash").toList) [] ⟨0, ("out").toList, []⟩ [] (("n").toList) rfl
      (by decide)).2⟩

/-- `get_similar_commands` unfolded into its scoring, sorting and
truncation stages. -/
theorem get_similar_eq (history : List HistoryEntry)
    (task_description : List Char) (limit : Nat) :
    get_similar_commands history task_description limit =
      ((List.insertionSort (fun a b => b.1 ≤ a.1)
          (scoredOf history task_description)).take limit).map
        (fun p => p.2) := rfl

/-- Membership in the scored list: exactly the successful entries with a
positive overlap, paired with their Jaccard score. -/
theorem mem_scoredOf {history : List HistoryEntry} {task : List Char}
    {p : ℚ × HistoryEntry} :
    p ∈ scoredOf history task ↔
      ∃ e ∈ history, e.success = true ∧
        0 < (tokensOf task ∩ tokensOf e.task_description).card ∧
        p = (jaccard task e.task_description, e) := by
  simp only [scoredOf, List.mem_filterMap]
  constructor
  · rintro ⟨e, he, hfe⟩
    split_ifs at hfe with hs ho
    · exact ⟨e, he, hs, ho, (Option.some.inj hfe).symm⟩
  · rintro ⟨e, he, hs, ho, hp⟩
    refine ⟨e, he, ?_⟩
    rw [if_pos hs, if_pos ho, hp]
    rfl

/-- Claim C6: `get_similar_commands` returns at most `limit` entries, all
drawn from the history with a positive token-set intersection against the
query, sorted by Jaccard score descending; every successful entry with a
positive intersection appears unless the limit cut it off; and on an empty
history the result is empty for every query and limit. -/
theorem C6_similar_commands (history : List HistoryEntry)
    (task : List Char) (limit : Nat)
    (hsucc : ∀ e ∈ history, e.success = true) :
    (get_similar_commands history task limit).length ≤ limit ∧
      List.Pairwise
        (fun a b => jaccard task b.task_description ≤
          jaccard task a.task_description)
        (get_similar_commands history task limit) ∧
      (∀ e ∈ get_similar_commands history task limit,
        e ∈ history ∧
          0 < (tokensOf task ∩ tokensOf e.task_description).card) ∧
      (∀ e ∈ history,
        0 < (tokensOf task ∩ tokensOf e.task_description).card →
          e ∈ get_similar_commands history task limit ∨
            (get_similar_commands history task limit).length = limit) ∧
      get_similar_commands [] task limit = [] := by
  haveI htot : IsTotal (ℚ × HistoryEntry) (fun a b => b.1 ≤ a.1) :=
    ⟨fun a b => le_total b.1 a.1⟩
  haveI htr : IsTrans (ℚ × HistoryEntry) (fun a b => b.1 ≤ a.1) :=
    ⟨fun _ _ _ h1 h2 => le_trans h2 h1⟩
  have hsorted : List.Sorted (fun a b => b.1 ≤ a.1)
      (List.insertionSort (fun a b => b.1 ≤ a.1) (scoredOf history task)) :=
    List.sorted_insertionSort _ _
  have htake : List.Pairwise (fun a b => b.1 ≤ a.1)
      ((List.insertionSort (fun a b => b.1 ≤ a.1)
        (scoredOf history task)).take limit) :=
    List.Pairwise.sublist (List.take_sublist _ _) hsorted
  have hscore : ∀ p ∈ (List.insertionSort (fun a b => b.1 ≤ a.1)
      (scoredOf history task)).take limit,
      p.1 = jaccard task p.2.task_description ∧ p.2 ∈ history ∧
        0 < (tokensOf task ∩ tokensOf p.2.task_description).card := by
    intro p hp
    have h1 : p ∈ scoredOf history task :=
      (List.mem_insertionSort _).mp (List.take_subset _ _ hp)
    obtain ⟨e, he, _, ho, hpe⟩ := mem_scoredOf.mp h1
    rw [hpe]
    exact ⟨rfl, he, ho⟩
  refine ⟨?_, ?_, ?_, ?_, by rw [get_similar_eq]; simp [scoredOf]⟩
  · rw [get_similar_eq]
    simp only [List.length_map, List.length_take]
    omega
  · rw [get_similar_eq, List.pairwise_map]
    refine List.Pairwise.imp_of_mem ?_ htake
    intro a b ha hb hr
    rw [← (hscore a ha).1, ← (hscore b hb).1]
    exact hr
  · rw [get_similar_eq]
    intro e he
    obtain ⟨p, hp, hpe⟩ := List.mem_map.mp he
    obtain ⟨_, hmem, ho⟩ := hscore p hp
    rw [← hpe]
    exact ⟨hmem, ho⟩
  · intro e he ho
    have hp : (jaccard task e.task_description, e) ∈ scoredOf history task :=
      mem_scoredOf.mpr ⟨e, he, hsucc e he, ho, rfl⟩
    have hp' : (jaccard task e.task_description, e) ∈
        List.insertionSort (fun a b => b.1 ≤ a.1) (scoredOf history task) :=
      (List.mem_insertionSort _).mpr hp
    rcases le_or_lt
        (List.insertionSort (fun a b => b.1 ≤ a.1)
          (scoredOf history task)).length limit with hle | hlt
    · left
      rw [get_similar_eq, List.take_of_length_le hle]
      exact List.mem_map_of_mem (fun p => p.2) hp'
    · right
      rw [get_similar_eq]
      simp only [List.length_map, List.length_take]
      omega

/-- Claim C6 witness: the theorem applied to the spec's two-entry history
(tasks `"list all files"` and `"find large files"`) with query
`"list files"` and limit 1, together with the concrete evaluation showing
the higher-Jaccard entry ranked first. -/
theorem C6_similar_commands_witness :
    (∀ e ∈ [entryListAllFiles, entryFindLargeFiles], e.success = true) ∧
      ((get_similar_commands [entryListAllFiles, entryFindLargeFiles]
            (("list files").toList) 1).map (fun e => e.command) =
        [("ls").toList]) ∧
      (get_similar_commands [entryListAllFiles, entryFindLargeFiles]
          (("list files").toList) 1).length ≤ 1 :=
  ⟨by decide, by decide,
    (C6_similar_commands [entryListAllFiles, entryFindLargeFiles]
      (("list files").toList) 1 (by decide)).1⟩

/-- `dropWhile` is idempotent. -/
theorem dropWhile_dropWhile {α : Type} (p : α → Bool) (l : List α) :
    (l.dropWhile p).dropWhile p = l.dropWhile p := by
  induction l with
  | nil => rfl
  | cons c rest ih =>
    by_cases h : p c
    · simp [List.dropWhile_cons, h, ih]
    · simp [List.dropWhile_cons, h]

/-- The head of a `dropWhile` result does not satisfy the predicate. -/
theorem dropWhile_head_not {α : Type} (p : α → Bool) :
    ∀ (l : List α) (c : α) (cs : List α),
      l.dropWhile p = c :: cs → p c = false := by
  intro l
  induction l with
  | nil => intro c cs h; cases h
  | cons x xs ih =>
    intro c cs h
    rw [List.dropWhile_cons] at h
    split_ifs at h with hx
    · exact ih c cs h
    · cases h
      simpa using hx

/-- A stripped string has no leading whitespace. -/
theorem strip_fixed (s : List Char) :
    (strip s).dropWhile isPySpace = strip s := by
  unfold strip
  cases hrz : ((s.dropWhile isPySpace).reverse.dropWhile isPySpace).reverse
      with
  | nil => simp
  | cons c cs =>
    have hdecomp : (s.dropWhile isPySpace).reverse.takeWhile isPySpace ++
        (s.dropWhile isPySpace).reverse.dropWhile isPySpace =
        (s.dropWhile isPySpace).reverse :=
      List.takeWhile_append_dropWhile _ _
    have hu : s.dropWhile isPySpace =
        ((s.dropWhile isPySpace).reverse.dropWhile isPySpace).reverse ++
          ((s.dropWhile isPySpace).reverse.takeWhile isPySpace).reverse := by
      conv_lhs => rw [← List.reverse_reverse (s.dropWhile isPySpace),
        ← hdecomp]
      rw [List.reverse_append]
    rw [hrz] at hu
    have hc : isPySpace c = false :=
      dropWhile_head_not isPySpace s c
        (cs ++ ((s.dropWhile isPySpace).reverse.takeWhile isPySpace).reverse)
        hu
    rw [List.dropWhile_cons, if_neg (by simp [hc])]

/-- `str.strip` is idempotent. -/
theorem strip_strip (s : List Char) : strip (strip s) = strip s := by
  have h1 : (strip s).dropWhile isPySpace = strip s := strip_fixed s
  have h2 : strip (strip s) =
      (((strip s).dropWhile isPySpace).reverse.dropWhile isPySpace).reverse :=
    rfl
  rw [h2, h1]
  have h3 : (strip s).reverse =
      (s.dropWhile isPySpace).reverse.dropWhile isPySpace := by
    simp [strip]
  rw [h3, dropWhile_dropWhile]
  simp [strip]

/-- A fold that conditionally appends is a `filterMap`. -/
theorem foldl_if_append_eq_filterMap {α β : Type} (p : α → Prop)
    [DecidablePred p] (g : α → β) :
    ∀ (l : List α) (acc : List β),
      l.foldl (fun acc m => if p m then acc ++ [g m] else acc) acc =
        acc ++ l.filterMap (fun m => if p m then some (g m) else none) := by
  intro l
  induction l with
  | nil => intro acc; simp
  | cons c rest ih =>
    intro acc
    by_cases h : p c
    · simp only [List.foldl_cons, List.filterMap_cons, if_pos h, ih]
      simp
    · simp only [List.foldl_cons, List.filterMap_cons, if_neg h, ih]

/-- Claim C7: `extract_code_blocks` is the in-order `filterMap` of the
fenced-block matches — trimmed bodies, blocks with trimmed body length at
most 5 dropped — so each returned block has a trimmed body longer than 5
characters; in particular the input with body `"hi"` yields no block. -/
theorem C7_code_blocks (text : List Char) :
    extract_code_blocks text =
      (findBlocks text).filterMap (fun m =>
        if (strip m.2).length > 5 then
          some { language := if m.1 = [] then none else some (lowerL m.1),
                 code := strip m.2 }
        else none) ∧
      (∀ b ∈ extract_code_blocks text,
        strip b.code = b.code ∧ 5 < b.code.length) ∧
      extract_code_blocks (("```\nhi\n```").toList) = [] := by
  have heq : extract_code_blocks text =
      (findBlocks text).filterMap (fun m =>
        if (strip m.2).length > 5 then
          some { language := if m.1 = [] then none else some (lowerL m.1),
                 code := strip m.2 }
        else none) := by
    have h := foldl_if_append_eq_filterMap
      (fun m : List Char × List Char => (strip m.2).length > 5)
      (fun m => ({ language := if m.1 = [] then none else some (lowerL m.1),
                   code := strip m.2 } : CodeBlock))
      (findBlocks text) []
    simpa [extract_code_blocks] using h
  refine ⟨heq, ?_, by decide⟩
  intro b hb
  rw [heq] at hb
  obtain ⟨m, _, hm⟩ := List.mem_filterMap.mp hb
  by_cases hlen : (strip m.2).length > 5
  · rw [if_pos hlen] at hm
    cases Option.some.inj hm
    exact ⟨strip_strip _, hlen⟩
  · rw [if_neg hlen] at hm
    cases hm

/-- Claim C7 witness: the filterMap characterisation and per-block bounds
instantiated on the spec's `"```python\nprint(1)\n```"` example. -/
theorem C7_code_blocks_witness :
    ({ language := some (("python").toList),
       code := ("print(1)").toList } : CodeBlock) ∈
        extract_code_blocks (("```python\nprint(1)\n```").toList) ∧
      (strip (("print(1)").toList) = ("print(1)").toList ∧
        5 < (("print(1)").toList).length) :=
  ⟨by decide,
    (C7_code_blocks (("```python\nprint(1)\n```").toList)).2.1
      { language := some (("python").toList), code := ("print(1)").toList }
      (by decide)⟩

/-- `splitNl` always yields at least one (possibly empty) line. -/
theorem splitNl_ne_nil : ∀ (l : List Char), splitNl l ≠ [] := by
  intro l
  cases l with
  | nil => simp [splitNl]
  | cons c rest =>
    rw [splitNl]
    split_ifs
    · simp
    · rcases hsr : splitNl rest with _ | ⟨g, gs⟩ <;> simp

/-- A string strips to empty exactly when it is all whitespace. -/
theorem strip_eq_nil_iff (s : List Char) :
    strip s = [] ↔ ∀ c ∈ s, isPySpace c = true := by
  unfold strip
  constructor
  · intro h
    have h1 : (s.dropWhile isPySpace).reverse.dropWhile isPySpace = [] := by
      simpa using congrArg List.reverse h
    have h3 : ∀ c ∈ s.dropWhile isPySpace, isPySpace c = true := fun c hc =>
      List.dropWhile_eq_nil_iff.mp h1 c (List.mem_reverse.mpr hc)
    intro c hc
    have hc2 : c ∈ s.takeWhile isPySpace ++ s.dropWhile isPySpace := by
      rw [List.takeWhile_append_dropWhile]
      exact hc
    rcases List.mem_append.mp hc2 with h | h
    · exact List.mem_takeWhile_imp h
    · exact h3 c h
  · intro h
    have h1 : s.dropWhile isPySpace = [] := List.dropWhile_eq_nil_iff.mpr h
    simp [h1]

/-- If every line of a text strips to empty, the whole text is
whitespace. -/
theorem allws_of_blank_lines :
    ∀ (t : List Char), (∀ line ∈ splitNl t, strip line = []) →
      ∀ c ∈ t, isPySpace c = true := by
  intro t
  induction t with
  | nil => intro _ c hc; cases hc
  | cons x rest ih =>
    intro h c hc
    by_cases hx : x = '\n'
    · have hrest : ∀ line ∈ splitNl rest, strip line = [] := by
        intro line hl
        apply h
        rw [splitNl, if_pos hx]
        exact List.mem_cons_of_mem _ hl
      rcases List.mem_cons.mp hc with rfl | hc'
      · rw [hx]; rfl
      · exact ih hrest c hc'
    · obtain ⟨g, gs, hg⟩ := List.exists_cons_of_ne_nil (splitNl_ne_nil rest)
      have hsplit : splitNl (x :: rest) = (x :: g) :: gs := by
        rw [splitNl, if_neg hx, hg]
      have hline : strip (x :: g) = [] :=
        h _ (by rw [hsplit]; exact List.mem_cons_self _ _)
      have hxg : ∀ d ∈ x :: g, isPySpace d = true :=
        (strip_eq_nil_iff _).mp hline
      rcases List.mem_cons.mp hc with rfl | hc'
      · exact hxg c (List.mem_cons_self _ _)
      · refine ih ?_ c hc'
        intro line hl
        rw [hg] at hl
        rcases List.mem_cons.mp hl with rfl | hl'
        · exact (strip_eq_nil_iff _).mpr
            (fun d hd => hxg d (List.mem_cons_of_mem _ hd))
        · exact h _ (by rw [hsplit]; exact List.mem_cons_of_mem _ hl')

/-- The fence-removal scanner is the identity on all-whitespace input. -/
theorem sub_fence_go_id :
    ∀ (fuel : Nat) (l : List Char), l.length ≤ fuel →
      (∀ c ∈ l, isPySpace c = true) → sub_fence_go fuel l = l := by
  intro fuel
  induction fuel with
  | zero => intro l _ _; rfl
  | succ fuel ih =>
    intro l hf h
    cases l with
    | nil => rfl
    | cons c rest =>
      have hc : isPySpace c = true := h c (List.mem_cons_self _ _)
      have hnb : ¬(c = btick ∧ rest.take 2 = [btick, btick]) := by
        rintro ⟨hcb, _⟩
        rw [hcb] at hc
        exact absurd hc (by decide)
      rw [sub_fence_go, if_neg hnb]
      have hrest := ih rest (by simp at hf; omega)
        (fun d hd => h d (List.mem_cons_of_mem _ hd))
      rw [hrest]

/-- The triple-backtick removal is the identity on all-whitespace input. -/
theorem sub_ticks3_id :
    ∀ (l : List Char), (∀ c ∈ l, isPySpace c = true) → sub_ticks3 l = l := by
  intro l
  induction l using sub_ticks3.induct with
  | case1 c1 c2 c3 rest hcond ih =>
    intro h
    have hc : isPySpace c1 = true := h c1 (List.mem_cons_self _ _)
    rw [hcond.1] at hc
    exact absurd hc (by decide)
  | case2 c1 c2 c3 rest hcond ih =>
    intro h
    rw [sub_ticks3, if_neg hcond]
    rw [ih (fun d hd => h d (List.mem_cons_of_mem _ hd))]
  | case3 l hl =>
    intro _
    rcases l with _ | ⟨c1, _ | ⟨c2, _ | ⟨c3, rest⟩⟩⟩
    · rfl
    · rfl
    · rfl
    · exact (hl c1 c2 c3 rest rfl).elim

/-- Backtick removal is the identity on all-whitespace input. -/
theorem drop_bticks_id (l : List Char)
    (h : ∀ c ∈ l, isPySpace c = true) : drop_bticks l = l := by
  refine List.filter_eq_self.mpr ?_
  intro c hc
  have hcw := h c hc
  have hne : c ≠ btick := by
    intro hcb
    rw [hcb] at hcw
    exact absurd hcw (by decide)
  simp [hne]

/-- The bold-span removal scanner is the identity on all-whitespace
input. -/
theorem sub_bold_go_id :
    ∀ (fuel : Nat) (l : List Char), l.length ≤ fuel →
      (∀ c ∈ l, isPySpace c = true) → sub_bold_go fuel l = l := by
  intro fuel
  induction fuel with
  | zero => intro l _ _; rfl
  | succ fuel ih =>
    intro l hf h
    cases l with
    | nil => rfl
    | cons c rest =>
      have hc : isPySpace c = true := h c (List.mem_cons_self _ _)
      have hnb : ¬(c = '*' ∧ rest.take 1 = ['*']) := by
        rintro ⟨hcb, _⟩
        rw [hcb] at hc
        exact absurd hc (by decide)
      rw [sub_bold_go, if_neg hnb]
      rw [ih rest (by simp at hf; omega)
        (fun d hd => h d (List.mem_cons_of_mem _ hd))]

/-- The bullet-marker removal scanner is the identity on all-whitespace
input. -/
theorem sub_bullets_go_id :
    ∀ (fuel : Nat) (anchored : Bool) (l : List Char), l.length ≤ fuel →
      (∀ c ∈ l, isPySpace c = true) →
      sub_bullets_go fuel anchored l = l := by
  intro fuel
  induction fuel with
  | zero => intro anchored l _ _; rfl
  | succ fuel ih =>
    intro anchored l hf h
    cases l with
    | nil => rfl
    | cons c rest =>
      have hdw : (c :: rest).dropWhile isPySpace = [] :=
        List.dropWhile_eq_nil_iff.mpr h
      have hrest := ih (c = '\n') rest (by simp at hf; omega)
        (fun d hd => h d (List.mem_cons_of_mem _ hd))
      cases anchored with
      | true => rw [sub_bullets_go, if_pos rfl, hdw, hrest]
      | false => rw [sub_bullets_go, if_neg (by simp), hrest]

/-- Claim C9: `extract_clean_command` is total by construction (it is a
Lean function on `List Char`) and deterministic; for every input with no
non-empty line — every line strips to empty, which includes the empty
string — it returns the empty string, an observable result rather than an
error. -/
theorem C9_blank_input (text : List Char)
    (h : ∀ line ∈ splitNl text, strip line = []) :
    extract_clean_command text = [] := by
  have hws : ∀ c ∈ text, isPySpace c = true := allws_of_blank_lines text h
  have h1 : sub_fence text = text :=
    sub_fence_go_id text.length text le_rfl hws
  have h2 : sub_ticks3 text = text := sub_ticks3_id text hws
  have h3 : drop_bticks text = text := drop_bticks_id text hws
  have h4 : sub_bold text = text :=
    sub_bold_go_id text.length text le_rfl hws
  have h5 : sub_bullets text = text :=
    sub_bullets_go_id text.length true text le_rfl hws
  have hlines : (splitNl text).filterMap (fun line =>
      let s := strip line
      if s = [] then none else some s) = [] := by
    refine List.filterMap_eq_nil_iff.mpr ?_
    intro line hl
    simp [h line hl]
  simp only [extract_clean_command, h1, h2, h3, h4, h5, hlines]
  rfl

/-- Claim C9 witness: the theorem applied to a whitespace-only input and,
via the trivially blank line set, to the empty input. -/
theorem C9_blank_input_witness :
    ((∀ line ∈ splitNl ((" \t\n  \n ").toList), strip line = []) ∧
      extract_clean_command ((" \t\n  \n ").toList) = []) ∧
      extract_clean_command [] = [] :=
  ⟨⟨by decide, C9_blank_input ((" \t\n  \n ").toList) (by decide)⟩,
    C9_blank_input [] (by decide)⟩

end FabricShell
